import Mathlib

/- Verification of git-blame-reviewer: a shallow embedding of the blame parser,
   remote-URL path parsing, the correlation loop and the two output formatters,
   together with theorems settling the specification claims.

   Go strings are modelled at the character level (List Char under String);
   this is exact for ASCII data, which covers all byte-level slicing performed
   by the source (hash prefixes, metadata keywords, email angle brackets). -/

namespace GitBlameReviewer

/-! ## Go string primitives -/

/-- Character class of unicode.IsSpace restricted to the Latin-1 range; the
higher White_Space code points never occur in the metadata keywords or hex
hashes the source inspects. -/
def isGoSpace (c : Char) : Bool :=
  c = ' ' || c = '\t' || c = '\n' || c = '\x0b' || c = '\x0c' || c = '\r' ||
  c = '\u0085' || c = ' '

/-- Substring s[:n] (Go slice to), total version used where the source has
established n is in bounds. -/
def strTake (s : String) (n : Nat) : String := ⟨s.data.take n⟩

/-- Substring s[n:] (Go slice from), total version. -/
def strDrop (s : String) (n : Nat) : String := ⟨s.data.drop n⟩

/-- strings.HasPrefix s p. -/
def goHasPre (s p : String) : Bool := s.data.take p.data.length = p.data

/-- strings.TrimSpace: trim leading and trailing space characters. -/
def goTrimSpace (s : String) : String :=
  ⟨((s.data.dropWhile isGoSpace).reverse.dropWhile isGoSpace).reverse⟩

/-- strings.TrimSuffix s sfx: drop sfx from the end of s when present. -/
def goTrimSfx (s sfx : String) : String :=
  if sfx.data.length ≤ s.data.length &&
     s.data.drop (s.data.length - sfx.data.length) = sfx.data
  then ⟨s.data.take (s.data.length - sfx.data.length)⟩
  else s

/-- strings.Split with a one-character separator. -/
def splitOnChar (sep : Char) : List Char → List (List Char)
  | [] => [[]]
  | c :: rest =>
    if c = sep then [] :: splitOnChar sep rest
    else
      match splitOnChar sep rest with
      | [] => [[c]]
      | r :: rs => (c :: r) :: rs

/-- bufio dropCR: strip one trailing carriage return from a scanned line. -/
def dropCR (l : List Char) : List Char :=
  if l.getLast? = some '\r' then l.dropLast else l

/-- bufio.Scanner with ScanLines over a string: split on newline, omit the
empty fragment after a trailing newline, strip one trailing CR per line. -/
def goScanLines (s : String) : List String :=
  let parts := splitOnChar '\n' s.data
  let parts := if parts.getLast? = some [] then parts.dropLast else parts
  parts.map (fun l => ⟨dropCR l⟩)

/-- Hexadecimal character test of isHexString, one rune at a time. -/
def isHexChar (c : Char) : Bool :=
  ('0' ≤ c && c ≤ '9') || ('a' ≤ c && c ≤ 'f') || ('A' ≤ c && c ≤ 'F')

/-- isHexString from the source: every rune is a hexadecimal digit. -/
def isHexString (s : String) : Bool := s.data.all isHexChar

/-- strings.Fields(line)[0], total version: first maximal run of non-space
characters after leading spaces.  The source only evaluates it on lines whose
first character is a hexadecimal digit, hence non-space. -/
def goFirstField (s : String) : String :=
  ⟨(s.data.dropWhile isGoSpace).takeWhile (fun c => !(isGoSpace c))⟩

/-- Decimal digit test for strconv.ParseInt. -/
def isDigitChar (c : Char) : Bool := '0' ≤ c && c ≤ '9'

/-- Accumulate decimal digits into a natural number. -/
def digitsToNat (l : List Char) : Nat :=
  l.foldl (fun acc c => 10 * acc + (c.toNat - '0'.toNat)) 0

/-- strconv.ParseInt(s, 10, 64): optional sign, one or more decimal digits,
value within the int64 range; any other input is an error (none). -/
def goParseInt64 (s : String) : Option Int :=
  let (sign, digits) :=
    match s.data with
    | '+' :: r => ((1 : Int), r)
    | '-' :: r => ((-1 : Int), r)
    | r => ((1 : Int), r)
  if digits.isEmpty then none
  else if !(digits.all isDigitChar) then none
  else
    let v : Int := sign * (digitsToNat digits : Int)
    if -(2 ^ 63) ≤ v ∧ v ≤ 2 ^ 63 - 1 then some v else none

/-! ## Data model -/

/-- BlameLine from git.go: one parsed line of git blame porcelain output. -/
structure BlameLine where
  CommitHash : String
  Author : String
  AuthorEmail : String
  Date : String
  LineNumber : Int
  Content : String
deriving DecidableEq

/-- The Go zero value of BlameLine, the initial open record of the parser. -/
def blameZero : BlameLine :=
  { CommitHash := "", Author := "", AuthorEmail := "", Date := ""
    LineNumber := 0, Content := "" }

/-! ## parseGitBlameOutput -/

/-- A line starts a new blame record: length at least 40 and the first 40
characters all hexadecimal (the guard of the source, with the slice taken
only after the length test). -/
def isRecordStart (line : String) : Bool :=
  40 ≤ line.data.length && isHexString (strTake line 40)

/-- Angle-bracket stripping of the author-mail branch: when the trimmed email
has length over 2, starts with < and ends with >, keep email[1:len-1]. -/
def stripMailBrackets (email : String) : String :=
  if 2 < email.data.length && email.data.head? = some '<' &&
     email.data.getLast? = some '>'
  then ⟨(email.data.take (email.data.length - 1)).drop 1⟩
  else email

/-- The metadata branch of the parser loop body: author, author-mail,
author-time and tab-content lines update the open record; anything else is
ignored. -/
def applyMeta (line : String) (cur : BlameLine) : BlameLine :=
  if goHasPre line "author " then { cur with Author := strDrop line 7 }
  else if goHasPre line "author-mail " then
    { cur with AuthorEmail := stripMailBrackets (goTrimSpace (strDrop line 12)) }
  else if goHasPre line "author-time " then { cur with Date := strDrop line 12 }
  else if goHasPre line "\t" then { cur with Content := strDrop line 1 }
  else cur

/-- The scan loop of parseGitBlameOutput over the list of scanned lines, with
the accumulated records, the open record and the running line counter. -/
def parseLoop : List String → List BlameLine → BlameLine → Int → List BlameLine
  | [], acc, cur, _ =>
    if cur.CommitHash ≠ "" then acc ++ [cur] else acc
  | line :: rest, acc, cur, lineNumber =>
    if line = "" then parseLoop rest acc cur lineNumber
    else if isRecordStart line then
      let acc' := if cur.CommitHash ≠ "" then acc ++ [cur] else acc
      parseLoop rest acc'
        { blameZero with
          CommitHash := goFirstField line, LineNumber := lineNumber + 1 }
        (lineNumber + 1)
    else parseLoop rest acc (applyMeta line cur) lineNumber

/-- parseGitBlameOutput from git.go.  scanner.Err() of a string reader is
always nil, so the Go error component is constantly absent and elided. -/
def parseGitBlameOutput (output : String) : List BlameLine :=
  parseLoop (goScanLines output) [] blameZero 0

/-! ## Checked parser: every Go slicing step with its panic condition

The checked variants return none exactly when the corresponding Go operation
would panic: string slices out of bounds, or indexing the head of an empty
field list. -/

/-- Checked Go slice s[:n]: panics (none) when n exceeds the length. -/
def strSliceTo? (s : String) (n : Nat) : Option String :=
  if n ≤ s.data.length then some ⟨s.data.take n⟩ else none

/-- Checked Go slice s[i:]: panics (none) when i exceeds the length. -/
def strSliceFrom? (s : String) (i : Nat) : Option String :=
  if i ≤ s.data.length then some ⟨s.data.drop i⟩ else none

/-- Checked Go slice s[i:j]: panics (none) unless i ≤ j ≤ length. -/
def strSlice? (s : String) (i j : Nat) : Option String :=
  if i ≤ j ∧ j ≤ s.data.length then some ⟨(s.data.take j).drop i⟩ else none

/-- Checked strings.Fields(line)[0]: panics (none) when there is no field. -/
def fieldsHead? (s : String) : Option String :=
  match s.data.dropWhile isGoSpace with
  | [] => none
  | l => some ⟨l.takeWhile (fun c => !(isGoSpace c))⟩

/-- Checked angle-bracket stripping: the slice email[1:len-1] goes through
the checked slice operation. -/
def stripMailBrackets? (email : String) : Option String :=
  if 2 < email.data.length && email.data.head? = some '<' &&
     email.data.getLast? = some '>'
  then strSlice? email 1 (email.data.length - 1)
  else some email

/-- Checked metadata branch: line[7:], line[12:], line[1:] and the email
slice all go through checked operations. -/
def applyMetaChecked (line : String) (cur : BlameLine) : Option BlameLine :=
  if goHasPre line "author " then
    (strSliceFrom? line 7).map (fun r => { cur with Author := r })
  else if goHasPre line "author-mail " then
    (strSliceFrom? line 12).bind (fun r =>
      (stripMailBrackets? (goTrimSpace r)).map
        (fun e => { cur with AuthorEmail := e }))
  else if goHasPre line "author-time " then
    (strSliceFrom? line 12).map (fun r => { cur with Date := r })
  else if goHasPre line "\t" then
    (strSliceFrom? line 1).map (fun r => { cur with Content := r })
  else some cur

/-- Checked record-start test: the slice line[:40] is evaluated only behind
the length guard, mirroring the short-circuit of the source condition. -/
def isRecordStartChecked (line : String) : Option Bool :=
  if 40 ≤ line.data.length then (strSliceTo? line 40).map isHexString
  else some false

/-- Checked scan loop: propagates a panic (none) from any slicing step. -/
def parseLoopChecked :
    List String → List BlameLine → BlameLine → Int → Option (List BlameLine)
  | [], acc, cur, _ =>
    some (if cur.CommitHash ≠ "" then acc ++ [cur] else acc)
  | line :: rest, acc, cur, lineNumber =>
    if line = "" then parseLoopChecked rest acc cur lineNumber
    else
      match isRecordStartChecked line with
      | none => none
      | some true =>
        match fieldsHead? line with
        | none => none
        | some hash =>
          let acc' := if cur.CommitHash ≠ "" then acc ++ [cur] else acc
          parseLoopChecked rest acc'
            { blameZero with CommitHash := hash, LineNumber := lineNumber + 1 }
            (lineNumber + 1)
      | some false =>
        match applyMetaChecked line cur with
        | none => none
        | some cur' => parseLoopChecked rest acc cur' lineNumber

/-- parseGitBlameOutput with every panic-prone operation checked. -/
def parseGitBlameOutputChecked (output : String) : Option (List BlameLine) :=
  parseLoopChecked (goScanLines output) [] blameZero 0

/-! ## Remote URL path parsing -/

/-- RepositoryType from git.go; the Go zero value is GitHub (iota 0). -/
inductive RepositoryType where
  | GitHub
  | GitLab
deriving DecidableEq

/-- RepoInfo from git.go.  The Go field Type is renamed RType because Type is
reserved in Lean. -/
structure RepoInfo where
  Owner : String
  Name : String
  RType : RepositoryType
  Host : String
deriving DecidableEq

/-- parseRepoPath from git.go: strip a trailing .git, split on the slash, and
fail exactly when fewer than two segments result; the first two segments
(empty or not) become owner and name, the rest are ignored.  RType and Host
keep their zero values, overwritten by every caller. -/
def parseRepoPath (path : String) : Option RepoInfo :=
  let stripped := goTrimSfx path ".git"
  match splitOnChar '/' stripped.data with
  | p0 :: p1 :: _ =>
    some { Owner := ⟨p0⟩, Name := ⟨p1⟩, RType := .GitHub, Host := "" }
  | _ => none

/-! ## Review data model -/

/-- The nested user object of a GitHub review. -/
structure ReviewUser where
  Login : String
  Email : String
deriving DecidableEq

/-- Review from github.go.  time.Time values are modelled by their Unix epoch
seconds; SubmittedAt is a nullable pointer in Go. -/
structure Review where
  User : ReviewUser
  State : String
  SubmittedAt : Option Int
deriving DecidableEq

/-- PullRequest from github.go (nested user flattened to its login). -/
structure PullRequest where
  Number : Int
  Title : String
  State : String
  UserLogin : String
  MergedAt : Option Int
deriving DecidableEq

/-- PRApprovalInfo from github.go: the associated PR and its approvals in
provider order. -/
structure PRApprovalInfo where
  PR : PullRequest
  Approvers : List Review
deriving DecidableEq

/-- BlameLineWithApproval from formatter.go; the embedded BlameLine of Go is
the named field blame, the other fields keep their Go zero values when no
approval data is attached. -/
structure BlameLineWithApproval where
  blame : BlameLine
  PRNumber : Int
  Approver : String
  ApproverEmail : String
  ApprovalTime : Option Int
deriving DecidableEq

/-! ## The correlation loop of runGitReviewBlame (step 5) -/

/-- The annotation applied to one blame line from a cached or fresh fetch
outcome: none is the failure marker (nil in the cache), leaving all approval
fields at their zero values; on success the PR number is set and, when the
approver list is non-empty, its last record supplies the approver fields. -/
def annotateFromInfo (bl : BlameLine) (entry : Option PRApprovalInfo) :
    BlameLineWithApproval :=
  match entry with
  | none =>
    { blame := bl, PRNumber := 0, Approver := "", ApproverEmail := ""
      ApprovalTime := none }
  | some info =>
    match info.Approvers.getLast? with
    | some lastApprover =>
      { blame := bl, PRNumber := info.PR.Number
        Approver := lastApprover.User.Login
        ApproverEmail := lastApprover.User.Email
        ApprovalTime := lastApprover.SubmittedAt }
    | none =>
      { blame := bl, PRNumber := info.PR.Number, Approver := ""
        ApproverEmail := "", ApprovalTime := none }

/-- Lookup in the commit cache (a Go map with string keys, represented as an
association list whose keys are unique because insertion happens only on a
miss). -/
def cacheLookup (h : String) :
    List (String × Option PRApprovalInfo) → Option (Option PRApprovalInfo)
  | [] => none
  | (k, v) :: rest => if h = k then some v else cacheLookup h rest

/-- State of the correlation loop: the commit cache, the number of
GetPRApprovalInfo calls issued so far with the hashes they were issued for
(instrumentation of the outbound fetches), and the accumulated output. -/
structure CorrState where
  commitCache : List (String × Option PRApprovalInfo)
  fetchCount : Nat
  fetchedHashes : List String
  out : List BlameLineWithApproval
deriving DecidableEq

/-- One iteration of the correlation loop: reuse a cached outcome, or issue
one fetch, store its outcome (success or the nil failure marker) in the
cache, and append the annotated line.  The fetch oracle may answer
differently on every call (it is indexed by the call count), modelling an
arbitrary remote. -/
def corrStep (fetch : Nat → String → Option PRApprovalInfo)
    (s : CorrState) (bl : BlameLine) : CorrState :=
  match cacheLookup bl.CommitHash s.commitCache with
  | some entry => { s with out := s.out ++ [annotateFromInfo bl entry] }
  | none =>
    let res := fetch s.fetchCount bl.CommitHash
    { commitCache := (bl.CommitHash, res) :: s.commitCache
      fetchCount := s.fetchCount + 1
      fetchedHashes := s.fetchedHashes ++ [bl.CommitHash]
      out := s.out ++ [annotateFromInfo bl res] }

/-- The correlation loop of runGitReviewBlame: fold the step over the blame
lines starting from an empty cache. -/
def correlationLoop (fetch : Nat → String → Option PRApprovalInfo)
    (blameLines : List BlameLine) : CorrState :=
  blameLines.foldl (corrStep fetch)
    { commitCache := [], fetchCount := 0, fetchedHashes := [], out := [] }

/-- The distinct commit hashes of a list in order of first occurrence,
relative to an already-seen set. -/
def firstOccAux (seen : List String) : List String → List String
  | [] => []
  | h :: t =>
    if h ∈ seen then firstOccAux seen t
    else h :: firstOccAux (h :: seen) t

/-- The distinct commit hashes of a list in order of first occurrence. -/
def firstOccurrences (l : List String) : List String := firstOccAux [] l

/-! ## Output formatting -/

/-- OutputFormatter from formatter.go. -/
structure OutputFormatter where
  ShowEmail : Bool
  Porcelain : Bool
  NoColors : Bool
deriving DecidableEq

/-- getAuthorName: the approver (or, with the email preference and a present
email, the approver email), falling back to the original author under the
same preference. -/
def getAuthorName (f : OutputFormatter) (l : BlameLineWithApproval) : String :=
  if l.Approver ≠ "" then
    if f.ShowEmail ∧ l.ApproverEmail ≠ "" then l.ApproverEmail else l.Approver
  else if f.ShowEmail ∧ l.blame.AuthorEmail ≠ "" then l.blame.AuthorEmail
  else l.blame.Author

/-- Natural number zero-padded to two digits. -/
def pad2 (n : Nat) : String := if n < 10 then "0" ++ toString n else toString n

/-- Year zero-padded to four digits, with a leading minus when negative. -/
def year4 (y : Int) : String :=
  let a := y.natAbs
  let s :=
    if a < 10 then "000" ++ toString a
    else if a < 100 then "00" ++ toString a
    else if a < 1000 then "0" ++ toString a
    else toString a
  if y < 0 then "-" ++ s else s

/-- Gregorian date of a day count from the Unix epoch (civil-from-days). -/
def civilFromDays (z0 : Int) : Int × Nat × Nat :=
  let z := z0 + 719468
  let era := Int.fdiv z 146097
  let doe := (z - era * 146097).toNat
  let yoe := (doe - doe / 1460 + doe / 36524 - doe / 146096) / 365
  let doy := doe - (365 * yoe + yoe / 4 - yoe / 100)
  let mp := (5 * doy + 2) / 153
  let d := doy - (153 * mp + 2) / 5 + 1
  let m := if mp < 10 then mp + 3 else mp - 9
  ((if m ≤ 2 then (yoe : Int) + era * 400 + 1 else (yoe : Int) + era * 400), m, d)

/-- time.Unix(t, 0).Format of the layout 2006-01-02 15:04:05, with the
process timezone taken as UTC.  No claim below depends on the rendered
value, only on where the formatter places it. -/
def goFormatDateTime (t : Int) : String :=
  let days := Int.fdiv t 86400
  let rem := (t - days * 86400).toNat
  let ymd := civilFromDays days
  year4 ymd.1 ++ "-" ++ pad2 ymd.2.1 ++ "-" ++ pad2 ymd.2.2 ++ " " ++
    pad2 (rem / 3600) ++ ":" ++ pad2 (rem % 3600 / 60) ++ ":" ++ pad2 (rem % 60)

/-- getDateString: the approval instant when present, else the commit
timestamp parsed as an epoch integer, else the raw stored string. -/
def getDateString (l : BlameLineWithApproval) : String :=
  match l.ApprovalTime with
  | some t => goFormatDateTime t
  | none =>
    match goParseInt64 l.blame.Date with
    | some ts => goFormatDateTime ts
    | none => l.blame.Date

/-- A run of spaces. -/
def spaces (n : Nat) : String := ⟨List.replicate n ' '⟩

/-- fmt %*d: a number right-aligned with spaces to the given width. -/
def padNumLeft (w : Nat) (n : Int) : String :=
  spaces (w - (toString n).data.length) ++ toString n

/-- fmt %-*s: a string left-aligned with trailing spaces to the given
width. -/
def padStrRight (w : Nat) (s : String) : String :=
  s ++ spaces (w - s.data.length)

/-- The commit hash shortened to its first 8 characters when longer. -/
def shortHash8 (h : String) : String :=
  if 8 < h.data.length then ⟨h.data.take 8⟩ else h

/-- One row of the human format: hash (author date lineNum) content. -/
def formatHumanRow (f : OutputFormatter) (authorWidth numWidth : Nat)
    (l : BlameLineWithApproval) : String :=
  shortHash8 l.blame.CommitHash ++ " (" ++
    padStrRight authorWidth (getAuthorName f l) ++ " " ++
    getDateString l ++ " " ++
    padNumLeft numWidth l.blame.LineNumber ++ ") " ++
    l.blame.Content ++ "\n"

/-- The width pass of formatHuman for the identity column: the widest
rendered author name across the whole set. -/
def maxAuthorWidth (f : OutputFormatter)
    (lines : List BlameLineWithApproval) : Nat :=
  lines.foldl (fun w l => max w (getAuthorName f l).data.length) 0

/-- formatHuman with an explicit line-number column width. -/
def formatHumanWithNumWidth (f : OutputFormatter) (numWidth : Nat)
    (lines : List BlameLineWithApproval) : String :=
  String.join (lines.map (formatHumanRow f (maxAuthorWidth f lines) numWidth))

/-- formatHuman from formatter.go: empty input renders empty; otherwise the
line-number column width is the character width of the count of lines
(len(strconv.Itoa(len(lines))) in the source). -/
def formatHuman (f : OutputFormatter)
    (lines : List BlameLineWithApproval) : String :=
  if lines.isEmpty then ""
  else formatHumanWithNumWidth f (toString lines.length).data.length lines

/-- The porcelain output is a sequence of field lines; each constructor is
one WriteString of the source. -/
inductive PorcelainField where
  | header (hash : String) (lineNumber : Int)
  | author (name : String)
  | authorMail (email : String)
  | authorTime (epoch : Int)
  | prNumber (n : Int)
  | filenameField
  | content (text : String)
deriving DecidableEq

/-- The text of one porcelain field line, exactly as the source prints it. -/
def renderPorcelainField : PorcelainField → String
  | .header h ln => h ++ " " ++ toString ln ++ " " ++ toString ln ++ " 1\n"
  | .author name => "author " ++ name ++ "\n"
  | .authorMail e => "author-mail <" ++ e ++ ">\n"
  | .authorTime t => "author-time " ++ toString t ++ "\n"
  | .prNumber n => "pr-number " ++ toString n ++ "\n"
  | .filenameField => "filename \n"
  | .content s => "\t" ++ s ++ "\n"

/-- The porcelain field lines of one annotated line, in emission order:
header; approver identity lines when an approver is present (email only when
non-empty, approval time only when present), otherwise the original author
identity lines (the mail line unconditionally, the time line only when the
stored date parses as an integer); a pr-number line when positive; the
filename line; the tab-prefixed content. -/
def porcelainFields (l : BlameLineWithApproval) : List PorcelainField :=
  [.header l.blame.CommitHash l.blame.LineNumber]
  ++ (if l.Approver ≠ "" then
        [.author l.Approver]
        ++ (if l.ApproverEmail ≠ "" then [.authorMail l.ApproverEmail] else [])
        ++ (match l.ApprovalTime with
            | some t => [.authorTime t]
            | none => [])
      else
        [.author l.blame.Author, .authorMail l.blame.AuthorEmail]
        ++ (match goParseInt64 l.blame.Date with
            | some ts => [.authorTime ts]
            | none => []))
  ++ (if 0 < l.PRNumber then [.prNumber l.PRNumber] else [])
  ++ [.filenameField, .content l.blame.Content]

/-- formatPorcelain from formatter.go. -/
def formatPorcelain (lines : List BlameLineWithApproval) : String :=
  String.join (lines.map
    (fun l => String.join ((porcelainFields l).map renderPorcelainField)))

/-- FormatOutput: the porcelain toggle selects the rendering mode. -/
def FormatOutput (f : OutputFormatter)
    (lines : List BlameLineWithApproval) : String :=
  if f.Porcelain then formatPorcelain lines else formatHuman f lines

/-- Recognizer of author-mail field lines. -/
def isAuthorMailField : PorcelainField → Bool
  | .authorMail _ => true
  | _ => false

/-- Recognizer of author-time field lines. -/
def isAuthorTimeField : PorcelainField → Bool
  | .authorTime _ => true
  | _ => false

/-! ## Lemmas about the correlation loop -/

lemma cacheLookup_eq_none_iff (h : String)
    (c : List (String × Option PRApprovalInfo)) :
    cacheLookup h c = none ↔ h ∉ c.map Prod.fst := by
  induction c with
  | nil => simp [cacheLookup]
  | cons p rest ih =>
    obtain ⟨k, v⟩ := p
    by_cases hk : h = k <;> simp [cacheLookup, hk, ih]

lemma corr_fetchedHashes_eq (fetch : Nat → String → Option PRApprovalInfo) :
    ∀ (lines : List BlameLine) (s : CorrState),
    (lines.foldl (corrStep fetch) s).fetchedHashes
      = s.fetchedHashes ++
        firstOccAux (s.commitCache.map Prod.fst) (lines.map (·.CommitHash)) := by
  intro lines
  induction lines with
  | nil => intro s; simp [firstOccAux]
  | cons bl rest ih =>
    intro s
    simp only [List.foldl_cons, List.map_cons]
    cases hc : cacheLookup bl.CommitHash s.commitCache with
    | some entry =>
      have hmem : bl.CommitHash ∈ s.commitCache.map Prod.fst := by
        by_contra hn
        rw [(cacheLookup_eq_none_iff _ _).mpr hn] at hc
        cases hc
      rw [ih]
      simp [corrStep, hc, firstOccAux, hmem]
    | none =>
      have hmem : bl.CommitHash ∉ s.commitCache.map Prod.fst :=
        (cacheLookup_eq_none_iff _ _).mp hc
      rw [ih]
      simp [corrStep, hc, firstOccAux, hmem, List.append_assoc]

lemma corr_fetchCount_eq (fetch : Nat → String → Option PRApprovalInfo) :
    ∀ (lines : List BlameLine) (s : CorrState),
    (lines.foldl (corrStep fetch) s).fetchCount
      = s.fetchCount +
        (firstOccAux (s.commitCache.map Prod.fst)
          (lines.map (·.CommitHash))).length := by
  intro lines
  induction lines with
  | nil => intro s; simp [firstOccAux]
  | cons bl rest ih =>
    intro s
    simp only [List.foldl_cons, List.map_cons]
    cases hc : cacheLookup bl.CommitHash s.commitCache with
    | some entry =>
      have hmem : bl.CommitHash ∈ s.commitCache.map Prod.fst := by
        by_contra hn
        rw [(cacheLookup_eq_none_iff _ _).mpr hn] at hc
        cases hc
      rw [ih]
      simp [corrStep, hc, firstOccAux, hmem]
    | none =>
      have hmem : bl.CommitHash ∉ s.commitCache.map Prod.fst :=
        (cacheLookup_eq_none_iff _ _).mp hc
      rw [ih]
      simp [corrStep, hc, firstOccAux, hmem]
      omega

lemma corr_lookup_stable (fetch : Nat → String → Option PRApprovalInfo) :
    ∀ (lines : List BlameLine) (s : CorrState) (h : String)
      (e : Option PRApprovalInfo),
    cacheLookup h s.commitCache = some e →
    cacheLookup h (lines.foldl (corrStep fetch) s).commitCache = some e := by
  intro lines
  induction lines with
  | nil => intro s h e he; simpa using he
  | cons bl rest ih =>
    intro s h e he
    simp only [List.foldl_cons]
    cases hc : cacheLookup bl.CommitHash s.commitCache with
    | some entry =>
      apply ih
      simpa [corrStep, hc] using he
    | none =>
      apply ih
      have hne : h ≠ bl.CommitHash := by
        intro heq
        rw [heq, hc] at he
        cases he
      simp [corrStep, hc, cacheLookup, hne, he]

lemma corr_out_eq (fetch : Nat → String → Option PRApprovalInfo) :
    ∀ (lines : List BlameLine) (s : CorrState),
    (lines.foldl (corrStep fetch) s).out
      = s.out ++ lines.map (fun bl =>
          annotateFromInfo bl
            ((cacheLookup bl.CommitHash
              (lines.foldl (corrStep fetch) s).commitCache).getD none)) := by
  intro lines
  induction lines with
  | nil => intro s; simp
  | cons bl rest ih =>
    intro s
    simp only [List.foldl_cons, List.map_cons]
    cases hc : cacheLookup bl.CommitHash s.commitCache with
    | some entry =>
      have hstep : cacheLookup bl.CommitHash (corrStep fetch s bl).commitCache
          = some entry := by
        simp [corrStep, hc]
      have hstable := corr_lookup_stable fetch rest (corrStep fetch s bl)
        bl.CommitHash entry hstep
      rw [ih, hstable]
      simp [corrStep, hc, List.append_assoc]
    | none =>
      have hstep : cacheLookup bl.CommitHash (corrStep fetch s bl).commitCache
          = some (fetch s.fetchCount bl.CommitHash) := by
        simp [corrStep, hc, cacheLookup]
      have hstable := corr_lookup_stable fetch rest (corrStep fetch s bl)
        bl.CommitHash _ hstep
      rw [ih, hstable]
      simp [corrStep, hc, List.append_assoc]

lemma annotateFromInfo_blame (bl : BlameLine) (e : Option PRApprovalInfo) :
    (annotateFromInfo bl e).blame = bl := by
  cases e with
  | none => rfl
  | some info => cases hl : info.Approvers.getLast? <;> simp [annotateFromInfo, hl]

lemma map_blame_annotate (l : List BlameLine)
    (g : BlameLine → Option PRApprovalInfo) :
    (l.map (fun bl => annotateFromInfo bl (g bl))).map (·.blame) = l := by
  induction l with
  | nil => rfl
  | cons b t ih => simp [annotateFromInfo_blame, ih]

lemma annotateFromInfo_fields (b₁ b₂ : BlameLine) (e : Option PRApprovalInfo) :
    (annotateFromInfo b₁ e).PRNumber = (annotateFromInfo b₂ e).PRNumber
    ∧ (annotateFromInfo b₁ e).Approver = (annotateFromInfo b₂ e).Approver
    ∧ (annotateFromInfo b₁ e).ApproverEmail = (annotateFromInfo b₂ e).ApproverEmail
    ∧ (annotateFromInfo b₁ e).ApprovalTime = (annotateFromInfo b₂ e).ApprovalTime := by
  cases e with
  | none => simp [annotateFromInfo]
  | some info => cases hl : info.Approvers.getLast? <;> simp [annotateFromInfo, hl]

lemma mem_firstOccAux (a : String) :
    ∀ (l seen : List String), a ∈ firstOccAux seen l ↔ a ∈ l ∧ a ∉ seen := by
  intro l
  induction l with
  | nil => intro seen; simp [firstOccAux]
  | cons h t ih =>
    intro seen
    by_cases hh : h ∈ seen
    · rw [firstOccAux, if_pos hh, ih]
      constructor
      · rintro ⟨ht, hs⟩
        exact ⟨List.mem_cons_of_mem _ ht, hs⟩
      · rintro ⟨h1, hs⟩
        rcases List.mem_cons.mp h1 with rfl | ht
        · exact absurd hh hs
        · exact ⟨ht, hs⟩
    · rw [firstOccAux, if_neg hh]
      constructor
      · intro hmem
        rcases List.mem_cons.mp hmem with rfl | ht
        · exact ⟨List.mem_cons_self _ _, hh⟩
        · rcases (ih (h :: seen)).mp ht with ⟨h2, h3⟩
          refine ⟨List.mem_cons_of_mem _ h2, fun hs => h3 ?_⟩
          exact List.mem_cons_of_mem _ hs
      · rintro ⟨h1, hs⟩
        rcases List.mem_cons.mp h1 with rfl | ht
        · exact List.mem_cons_self _ _
        · by_cases hah : a = h
          · subst hah; exact List.mem_cons_self _ _
          · refine List.mem_cons_of_mem _ ((ih (h :: seen)).mpr ⟨ht, ?_⟩)
            intro hmem
            rcases List.mem_cons.mp hmem with h4 | h4
            · exact hah h4
            · exact hs h4

lemma nodup_firstOccAux : ∀ (l seen : List String), (firstOccAux seen l).Nodup := by
  intro l
  induction l with
  | nil => intro seen; simp [firstOccAux]
  | cons h t ih =>
    intro seen
    by_cases hh : h ∈ seen
    · rw [firstOccAux, if_pos hh]; exact ih seen
    · rw [firstOccAux, if_neg hh]
      refine List.nodup_cons.mpr ⟨?_, ih _⟩
      intro hmem
      rcases (mem_firstOccAux h t (h :: seen)).mp hmem with ⟨_, hns⟩
      exact hns (List.mem_cons_self h seen)

lemma toFinset_firstOccurrences (l : List String) :
    (firstOccurrences l).toFinset = l.toFinset := by
  ext a
  simp [firstOccurrences, List.mem_toFinset, mem_firstOccAux]

lemma length_firstOccurrences (l : List String) :
    (firstOccurrences l).length = l.toFinset.card := by
  rw [← toFinset_firstOccurrences]
  exact (List.toFinset_card_of_nodup (nodup_firstOccAux l [])).symm

/-! ## Concrete fixtures for the witnesses -/

/-- A concrete blame line. -/
def exBlameA : BlameLine :=
  { CommitHash := "a1b2c3d4", Author := "John", AuthorEmail := "john@x.com"
    Date := "100", LineNumber := 1, Content := "x" }

/-- A second blame line sharing the commit hash of the first. -/
def exBlameB : BlameLine :=
  { exBlameA with LineNumber := 2, Content := "y" }

/-- A concrete approving review. -/
def exReview : Review :=
  { User := { Login := "jane", Email := "jane@x.com" }, State := "APPROVED"
    SubmittedAt := some 1609632000 }

/-- A concrete approval outcome with one approver. -/
def exInfo : PRApprovalInfo :=
  { PR := { Number := 123, Title := "t", State := "merged", UserLogin := "bob"
            MergedAt := none }
    Approvers := [exReview] }

/-- A fetch oracle that always succeeds with the concrete outcome. -/
def exFetchOK : Nat → String → Option PRApprovalInfo := fun _ _ => some exInfo

/-- A fetch oracle that always fails. -/
def exFetchFail : Nat → String → Option PRApprovalInfo := fun _ _ => none

/-! ## Claims about the correlation loop -/

/-- C1: over any input sequence of BlameLines and any behaviour of the
remote, the correlation loop issues its GetPRApprovalInfo calls exactly on
the first occurrences of the distinct commit hashes, in order, so the number
of calls equals the number K of distinct hashes among the N lines,
regardless of N. -/
theorem correlationLoop_fetches_once_per_distinct_commit
    (fetch : Nat → String → Option PRApprovalInfo)
    (blameLines : List BlameLine) :
    (correlationLoop fetch blameLines).fetchedHashes
        = firstOccurrences (blameLines.map (·.CommitHash))
    ∧ (correlationLoop fetch blameLines).fetchCount
        = ((blameLines.map (·.CommitHash)).toFinset).card := by
  have h1 := corr_fetchedHashes_eq fetch blameLines
    { commitCache := [], fetchCount := 0, fetchedHashes := [], out := [] }
  have h2 := corr_fetchCount_eq fetch blameLines
    { commitCache := [], fetchCount := 0, fetchedHashes := [], out := [] }
  constructor
  · simpa [correlationLoop, firstOccurrences] using h1
  · rw [← length_firstOccurrences]
    simpa [correlationLoop, firstOccurrences] using h2

/-- C2: the correlation loop never aborts: it returns one annotated line per
input line in the same order (the blame components of the output are exactly
the input sequence), and every output line whose commit hash is stored in
the cache with the failure marker carries the zero PR number and empty
approver name, email and approval time. -/
theorem correlationLoop_never_aborts_and_falls_back
    (fetch : Nat → String → Option PRApprovalInfo)
    (blameLines : List BlameLine) :
    (correlationLoop fetch blameLines).out.map (·.blame) = blameLines
    ∧ ∀ o ∈ (correlationLoop fetch blameLines).out,
        cacheLookup o.blame.CommitHash
            (correlationLoop fetch blameLines).commitCache = some none →
        o.PRNumber = 0 ∧ o.Approver = "" ∧ o.ApproverEmail = ""
          ∧ o.ApprovalTime = none := by
  have hout := corr_out_eq fetch blameLines
    { commitCache := [], fetchCount := 0, fetchedHashes := [], out := [] }
  rw [List.nil_append] at hout
  constructor
  · simp only [correlationLoop]
    rw [hout]
    exact map_blame_annotate _ _
  · intro o ho hfail
    simp only [correlationLoop] at ho hfail
    rw [hout] at ho
    rcases List.mem_map.mp ho with ⟨bl, hbl, rfl⟩
    rw [annotateFromInfo_blame] at hfail
    rw [hfail]
    simp [annotateFromInfo]

/-- Witness for C2 at a concrete failing fetch. -/
theorem correlationLoop_never_aborts_and_falls_back_witness :
    (correlationLoop exFetchFail [exBlameA]).out.map (·.blame) = [exBlameA]
    ∧ ((annotateFromInfo exBlameA none).PRNumber = 0
        ∧ (annotateFromInfo exBlameA none).Approver = ""
        ∧ (annotateFromInfo exBlameA none).ApproverEmail = ""
        ∧ (annotateFromInfo exBlameA none).ApprovalTime = none) :=
  ⟨(correlationLoop_never_aborts_and_falls_back exFetchFail [exBlameA]).1,
   (correlationLoop_never_aborts_and_falls_back exFetchFail [exBlameA]).2
     (annotateFromInfo exBlameA none) (by decide) (by decide)⟩

/-- C3: for every output line whose commit hash is cached with a successful
outcome, the PR number is that of the fetched record; when the approver list
is non-empty the approver name, email and time come from its last record in
provider order, and when it is empty the approver fields stay unset. -/
theorem correlationLoop_success_annotation_policy
    (fetch : Nat → String → Option PRApprovalInfo)
    (blameLines : List BlameLine)
    (o : BlameLineWithApproval) (info : PRApprovalInfo)
    (ho : o ∈ (correlationLoop fetch blameLines).out)
    (hs : cacheLookup o.blame.CommitHash
        (correlationLoop fetch blameLines).commitCache = some (some info)) :
    o.PRNumber = info.PR.Number
    ∧ (∀ lastApprover, info.Approvers.getLast? = some lastApprover →
        o.Approver = lastApprover.User.Login
        ∧ o.ApproverEmail = lastApprover.User.Email
        ∧ o.ApprovalTime = lastApprover.SubmittedAt)
    ∧ (info.Approvers = [] →
        o.Approver = "" ∧ o.ApproverEmail = "" ∧ o.ApprovalTime = none) := by
  have hout := corr_out_eq fetch blameLines
    { commitCache := [], fetchCount := 0, fetchedHashes := [], out := [] }
  rw [List.nil_append] at hout
  simp only [correlationLoop] at ho hs
  rw [hout] at ho
  rcases List.mem_map.mp ho with ⟨bl, hbl, rfl⟩
  rw [annotateFromInfo_blame] at hs
  rw [hs]
  simp only [Option.getD_some]
  refine ⟨?_, ?_, ?_⟩
  · cases hl : info.Approvers.getLast? <;> simp [annotateFromInfo, hl]
  · intro lastApprover hl
    simp [annotateFromInfo, hl]
  · intro hnil
    simp [annotateFromInfo, hnil]

/-- Witness for C3 at a concrete successful fetch with one approver. -/
theorem correlationLoop_success_annotation_policy_witness :
    (annotateFromInfo exBlameA (some exInfo)).PRNumber = exInfo.PR.Number
    ∧ (∀ lastApprover, exInfo.Approvers.getLast? = some lastApprover →
        (annotateFromInfo exBlameA (some exInfo)).Approver
            = lastApprover.User.Login
        ∧ (annotateFromInfo exBlameA (some exInfo)).ApproverEmail
            = lastApprover.User.Email
        ∧ (annotateFromInfo exBlameA (some exInfo)).ApprovalTime
            = lastApprover.SubmittedAt)
    ∧ (exInfo.Approvers = [] →
        (annotateFromInfo exBlameA (some exInfo)).Approver = ""
        ∧ (annotateFromInfo exBlameA (some exInfo)).ApproverEmail = ""
        ∧ (annotateFromInfo exBlameA (some exInfo)).ApprovalTime = none) :=
  correlationLoop_success_annotation_policy exFetchOK [exBlameA]
    (annotateFromInfo exBlameA (some exInfo)) exInfo (by decide) (by decide)

/-- C10: any two output lines of the correlation loop whose blame lines
carry the same commit hash receive identical PR number, approver name,
approver email and approval time, whether the outcome was served by the
fetch path or the cache-hit path, for successes and failures alike. -/
theorem correlationLoop_same_hash_same_annotation
    (fetch : Nat → String → Option PRApprovalInfo)
    (blameLines : List BlameLine)
    (o₁ o₂ : BlameLineWithApproval)
    (h₁ : o₁ ∈ (correlationLoop fetch blameLines).out)
    (h₂ : o₂ ∈ (correlationLoop fetch blameLines).out)
    (hh : o₁.blame.CommitHash = o₂.blame.CommitHash) :
    o₁.PRNumber = o₂.PRNumber
    ∧ o₁.Approver = o₂.Approver
    ∧ o₁.ApproverEmail = o₂.ApproverEmail
    ∧ o₁.ApprovalTime = o₂.ApprovalTime := by
  have hout := corr_out_eq fetch blameLines
    { commitCache := [], fetchCount := 0, fetchedHashes := [], out := [] }
  rw [List.nil_append] at hout
  simp only [correlationLoop] at h₁ h₂
  rw [hout] at h₁ h₂
  rcases List.mem_map.mp h₁ with ⟨b₁, hb₁, rfl⟩
  rcases List.mem_map.mp h₂ with ⟨b₂, hb₂, rfl⟩
  rw [annotateFromInfo_blame, annotateFromInfo_blame] at hh
  rw [hh]
  exact annotateFromInfo_fields b₁ b₂ _

/-! ## Lemmas about the blame parser -/

lemma applyMeta_CommitHash (line : String) (cur : BlameLine) :
    (applyMeta line cur).CommitHash = cur.CommitHash := by
  simp only [applyMeta]
  split <;> try rfl
  split <;> try rfl
  split <;> try rfl
  split <;> rfl

lemma applyMeta_LineNumber (line : String) (cur : BlameLine) :
    (applyMeta line cur).LineNumber = cur.LineNumber := by
  simp only [applyMeta]
  split <;> try rfl
  split <;> try rfl
  split <;> try rfl
  split <;> rfl

lemma hexChar_not_space (c : Char) (h : isHexChar c = true) :
    isGoSpace c = false := by
  by_contra hne
  have hsp : isGoSpace c = true := by
    revert hne; cases isGoSpace c <;> simp
  simp only [isGoSpace, Bool.or_eq_true, decide_eq_true_eq, or_assoc] at hsp
  rcases hsp with h1 | h1 | h1 | h1 | h1 | h1 | h1 | h1 <;> subst h1 <;>
    exact absurd h (by decide)

lemma recordStart_head_hex (line : String) (h : isRecordStart line = true) :
    ∃ c rest, line.data = c :: rest ∧ isHexChar c = true := by
  simp only [isRecordStart, Bool.and_eq_true, decide_eq_true_eq] at h
  obtain ⟨hlen, hhex⟩ := h
  cases hd : line.data with
  | nil => rw [hd] at hlen; simp at hlen
  | cons c rest =>
    refine ⟨c, rest, rfl, ?_⟩
    simp only [isHexString, strTake, hd] at hhex
    have ht : (c :: rest).take 40 = c :: rest.take 39 := rfl
    rw [ht] at hhex
    simp only [List.all_cons, Bool.and_eq_true] at hhex
    exact hhex.1

lemma recordStart_firstField_ne (line : String)
    (h : isRecordStart line = true) : goFirstField line ≠ "" := by
  obtain ⟨c, rest, hd, hc⟩ := recordStart_head_hex line h
  have hs := hexChar_not_space c hc
  intro hcontra
  have hdata := congrArg String.data hcontra
  simp only [goFirstField] at hdata
  rw [hd] at hdata
  simp [List.dropWhile_cons, List.takeWhile_cons, hs] at hdata

lemma range_shift_int (k : Nat) (n : Int) :
    (n + 1) :: (List.range k).map (fun i : Nat => n + 1 + 1 + (i : Int))
      = (List.range (k + 1)).map (fun i : Nat => n + 1 + (i : Int)) := by
  rw [List.range_succ_eq_map]
  simp only [List.map_cons, List.map_map]
  refine congrArg₂ (· :: ·) (by simp) ?_
  apply List.map_congr_left
  intro i _
  simp only [Function.comp_apply]
  push_cast
  ring

lemma parseLoop_map_lineNumbers :
    ∀ (ls : List String) (acc : List BlameLine) (cur : BlameLine) (n : Int),
    (parseLoop ls acc cur n).map (·.LineNumber)
      = acc.map (·.LineNumber)
        ++ (if cur.CommitHash ≠ "" then [cur.LineNumber] else [])
        ++ ((List.range ((ls.filter isRecordStart).length)).map
              (fun i : Nat => n + 1 + (i : Int))) := by
  intro ls
  induction ls with
  | nil =>
    intro acc cur n
    by_cases hcur : cur.CommitHash = "" <;> simp [parseLoop, hcur]
  | cons line rest ih =>
    intro acc cur n
    by_cases hemp : line = ""
    · subst hemp
      have hrs : isRecordStart "" = false := by decide
      rw [parseLoop, if_pos rfl, ih]
      simp [hrs]
    · by_cases hstart : isRecordStart line = true
      · rw [parseLoop, if_neg hemp, if_pos hstart, ih]
        have hne : goFirstField line ≠ "" := recordStart_firstField_ne line hstart
        simp only [List.filter_cons, hstart, if_true, List.length_cons]
        rw [← range_shift_int]
        by_cases hcur : cur.CommitHash = "" <;>
          simp [hcur, hne, List.append_assoc]
      · have hstart' : isRecordStart line = false := by
          revert hstart; cases isRecordStart line <;> simp
        rw [parseLoop, if_neg hemp, if_neg (by rw [hstart']; simp), ih]
        rw [applyMeta_CommitHash, applyMeta_LineNumber]
        simp [List.filter_cons, hstart']

/-- C4: for every input text, the parsed sequence has one record per
record-start line (length at least 40, first 40 characters hexadecimal) and
the LineNumber fields are exactly 1..N in order of appearance. -/
theorem parseGitBlameOutput_length_and_lineNumbers (output : String) :
    (parseGitBlameOutput output).length
        = ((goScanLines output).filter isRecordStart).length
    ∧ (parseGitBlameOutput output).map (·.LineNumber)
        = (List.range ((goScanLines output).filter isRecordStart).length).map
            (fun i : Nat => (i : Int) + 1) := by
  have h := parseLoop_map_lineNumbers (goScanLines output) [] blameZero 0
  have hz : (blameZero.CommitHash = "") := rfl
  rw [parseGitBlameOutput] at *
  simp only [hz, ne_eq, not_true_eq_false, if_false, List.map_nil,
    List.nil_append] at h
  have hmap : (parseLoop (goScanLines output) [] blameZero 0).map (·.LineNumber)
      = (List.range ((goScanLines output).filter isRecordStart).length).map
          (fun i : Nat => (i : Int) + 1) := by
    rw [h]
    apply List.map_congr_left
    intro i _
    ring
  refine ⟨?_, hmap⟩
  have hlen := congrArg List.length hmap
  rw [List.length_map, List.length_map, List.length_range] at hlen
  exact hlen

/-! ## Panic freedom of the parser -/

lemma goHasPre_length (s p : String) (h : goHasPre s p = true) :
    p.data.length ≤ s.data.length := by
  simp only [goHasPre, decide_eq_true_eq] at h
  have hlen := congrArg List.length h
  rw [List.length_take] at hlen
  rcases Nat.le_total p.data.length s.data.length with hle | hle
  · exact hle
  · rw [Nat.min_eq_right hle] at hlen; omega

lemma strSliceFrom?_eq (s : String) (i : Nat) (h : i ≤ s.data.length) :
    strSliceFrom? s i = some (strDrop s i) := by
  simp only [strSliceFrom?, strDrop]
  rw [if_pos h]

lemma stripMailBrackets?_eq (email : String) :
    stripMailBrackets? email = some (stripMailBrackets email) := by
  simp only [stripMailBrackets?, stripMailBrackets]
  by_cases hg : (2 < email.data.length && email.data.head? = some '<' &&
      email.data.getLast? = some '>') = true
  · rw [if_pos hg, if_pos hg]
    have hlen : 2 < email.data.length := by
      simp only [Bool.and_eq_true, decide_eq_true_eq] at hg
      exact hg.1.1
    have hc : 1 ≤ email.data.length - 1 ∧
        email.data.length - 1 ≤ email.data.length := by omega
    rw [strSlice?, if_pos hc]
  · rw [if_neg hg, if_neg hg]

lemma applyMetaChecked_eq (line : String) (cur : BlameLine) :
    applyMetaChecked line cur = some (applyMeta line cur) := by
  simp only [applyMetaChecked, applyMeta]
  by_cases h1 : goHasPre line "author " = true
  · have h7 : ("author " : String).data.length = 7 := rfl
    have hle : 7 ≤ line.data.length := by
      have := goHasPre_length line "author " h1; omega
    simp [h1, strSliceFrom?_eq line 7 hle]
  · by_cases h2 : goHasPre line "author-mail " = true
    · have h12 : ("author-mail " : String).data.length = 12 := rfl
      have hle : 12 ≤ line.data.length := by
        have := goHasPre_length line "author-mail " h2; omega
      simp [h1, h2, strSliceFrom?_eq line 12 hle, stripMailBrackets?_eq]
    · by_cases h3 : goHasPre line "author-time " = true
      · have h12 : ("author-time " : String).data.length = 12 := rfl
        have hle : 12 ≤ line.data.length := by
          have := goHasPre_length line "author-time " h3; omega
        simp [h1, h2, h3, strSliceFrom?_eq line 12 hle]
      · by_cases h4 : goHasPre line "\t" = true
        · have htab : ("\t" : String).data.length = 1 := rfl
          have hle : 1 ≤ line.data.length := by
            have := goHasPre_length line "\t" h4; omega
          simp [h1, h2, h3, h4, strSliceFrom?_eq line 1 hle]
        · simp [h1, h2, h3, h4]

lemma isRecordStartChecked_eq (line : String) :
    isRecordStartChecked line = some (isRecordStart line) := by
  simp only [isRecordStartChecked, isRecordStart, strSliceTo?, strTake]
  by_cases h : 40 ≤ line.data.length
  · rw [if_pos h, if_pos h, Option.map_some', decide_eq_true h, Bool.true_and]
  · rw [if_neg h, decide_eq_false h, Bool.false_and]

lemma fieldsHead?_eq_of_recordStart (line : String)
    (h : isRecordStart line = true) :
    fieldsHead? line = some (goFirstField line) := by
  obtain ⟨c, rest, hd, hc⟩ := recordStart_head_hex line h
  have hs := hexChar_not_space c hc
  simp only [fieldsHead?, goFirstField]
  rw [hd]
  simp [List.dropWhile_cons, hs]

lemma parseLoopChecked_eq :
    ∀ (ls : List String) (acc : List BlameLine) (cur : BlameLine) (n : Int),
    parseLoopChecked ls acc cur n = some (parseLoop ls acc cur n) := by
  intro ls
  induction ls with
  | nil => intro acc cur n; rfl
  | cons line rest ih =>
    intro acc cur n
    rw [parseLoopChecked, parseLoop]
    by_cases hemp : line = ""
    · simp [hemp, ih]
    · rw [if_neg hemp, if_neg hemp]
      rw [isRecordStartChecked_eq]
      by_cases hstart : isRecordStart line = true
      · rw [hstart, fieldsHead?_eq_of_recordStart line hstart]
        simp [hstart, ih]
      · have hf : isRecordStart line = false := by
          revert hstart; cases isRecordStart line <;> simp
        rw [hf]
        simp [hf, applyMetaChecked_eq, ih]

/-- C9: parseGitBlameOutput is total and panic-free on every input: the
checked parser, in which every Go slicing operation (line[:40], parts[0],
line[7:], line[12:], line[1:], email[1:len-1]) returns none exactly on its
panic condition, succeeds on every input and agrees with the parser. -/
theorem parseGitBlameOutput_never_panics (output : String) :
    parseGitBlameOutputChecked output = some (parseGitBlameOutput output) :=
  parseLoopChecked_eq (goScanLines output) [] blameZero 0

/-- Witness for C10: two lines sharing a hash, cache hit on the second. -/
theorem correlationLoop_same_hash_same_annotation_witness :
    (annotateFromInfo exBlameA (some exInfo)).PRNumber
        = (annotateFromInfo exBlameB (some exInfo)).PRNumber
    ∧ (annotateFromInfo exBlameA (some exInfo)).Approver
        = (annotateFromInfo exBlameB (some exInfo)).Approver
    ∧ (annotateFromInfo exBlameA (some exInfo)).ApproverEmail
        = (annotateFromInfo exBlameB (some exInfo)).ApproverEmail
    ∧ (annotateFromInfo exBlameA (some exInfo)).ApprovalTime
        = (annotateFromInfo exBlameB (some exInfo)).ApprovalTime :=
  correlationLoop_same_hash_same_annotation exFetchOK [exBlameA, exBlameB]
    (annotateFromInfo exBlameA (some exInfo))
    (annotateFromInfo exBlameB (some exInfo))
    (by decide) (by decide) (by decide)

/-! ## The repository path claim -/

lemma splitOnChar_ne_nil (sep : Char) : ∀ l : List Char, splitOnChar sep l ≠ []
  | [] => by simp [splitOnChar]
  | c :: rest => by
    simp only [splitOnChar]
    by_cases hc : c = sep
    · simp [hc]
    · rw [if_neg hc]
      cases hsp : splitOnChar sep rest <;> simp

lemma splitOnChar_length (sep : Char) (l : List Char) :
    (splitOnChar sep l).length = l.count sep + 1 := by
  induction l with
  | nil => simp [splitOnChar]
  | cons c rest ih =>
    by_cases hc : c = sep
    · subst hc
      simp [splitOnChar, ih, List.count_cons]
    · rw [splitOnChar, if_neg hc]
      cases hsp : splitOnChar sep rest with
      | nil => exact absurd hsp (splitOnChar_ne_nil sep rest)
      | cons r rs =>
        rw [hsp] at ih
        simp only [List.length_cons] at ih ⊢
        rw [List.count_cons]
        have hb : (c == sep) = false := by
          simp [hc]
        rw [hb]
        simpa using ih

/-- The availability condition the claim states for parseRepoPath: owner and
name are the first two NON-EMPTY path segments, failing when fewer than two
non-empty segments exist. -/
def parseRepoPathSpecC5 (path : String) : Option (String × String) :=
  let stripped := goTrimSfx path ".git"
  match (splitOnChar '/' stripped.data).filter (fun seg => !seg.isEmpty) with
  | p0 :: p1 :: _ => some (⟨p0⟩, ⟨p1⟩)
  | _ => none

/-- C5 counterexample: on the path "/repo", whose first segment is empty,
the code succeeds with an empty owner, while the claim requires failure
because fewer than two non-empty segments exist. -/
theorem parseRepoPath_empty_segment_counterexample :
    parseRepoPath "/repo"
        = some { Owner := "", Name := "repo"
                 RType := RepositoryType.GitHub, Host := "" }
    ∧ parseRepoPathSpecC5 "/repo" = none := by decide

/-- C5 amended: after stripping a trailing .git, owner and name are the
first two segments of the slash-split, empty segments included, and any
further segments are ignored; parsing fails exactly when the stripped path
contains no slash at all, which is the only way fewer than two segments can
exist. -/
theorem parseRepoPath_first_two_segments (path : String) :
    (parseRepoPath path = none ↔ '/' ∉ (goTrimSfx path ".git").data)
    ∧ ∀ info, parseRepoPath path = some info →
        ∃ rest, splitOnChar '/' (goTrimSfx path ".git").data
            = info.Owner.data :: info.Name.data :: rest := by
  have hlen := splitOnChar_length '/' (goTrimSfx path ".git").data
  cases hsp : splitOnChar '/' (goTrimSfx path ".git").data with
  | nil => exact absurd hsp (splitOnChar_ne_nil _ _)
  | cons p0 ps =>
    cases ps with
    | nil =>
      rw [hsp] at hlen
      simp only [List.length_cons, List.length_nil] at hlen
      have hcount : (goTrimSfx path ".git").data.count '/' = 0 := by omega
      constructor
      · constructor
        · intro _ hmem
          have := List.count_pos_iff.mpr hmem
          omega
        · intro _
          simp [parseRepoPath, hsp]
      · intro info hinfo
        simp [parseRepoPath, hsp] at hinfo
    | cons p1 rest =>
      rw [hsp] at hlen
      simp only [List.length_cons] at hlen
      have hmem : '/' ∈ (goTrimSfx path ".git").data := by
        apply List.count_pos_iff.mp
        omega
      constructor
      · constructor
        · intro hnone
          simp [parseRepoPath, hsp] at hnone
        · intro habs
          exact absurd hmem habs
      · intro info hinfo
        simp only [parseRepoPath, hsp, Option.some.injEq] at hinfo
        refine ⟨rest, ?_⟩
        subst hinfo
        rfl

/-- Witness for C5 amended at a standard two-segment path. -/
theorem parseRepoPath_first_two_segments_witness :
    ∃ rest, splitOnChar '/' (goTrimSfx "owner/repo.git" ".git").data
        = ("owner" : String).data :: ("repo" : String).data :: rest :=
  (parseRepoPath_first_two_segments "owner/repo.git").2
    { Owner := "owner", Name := "repo"
      RType := RepositoryType.GitHub, Host := "" }
    (by decide)

/-! ## The porcelain author-mail and author-time claims -/

/-- The availability condition the claim states for the author-mail line:
an email value exists for whichever identity was used. -/
def authorMailAvailableSpec (l : BlameLineWithApproval) : Bool :=
  if l.Approver ≠ "" then l.ApproverEmail ≠ "" else l.blame.AuthorEmail ≠ ""

/-- C6 counterexample: in the fallback to an original author whose email is
empty, the code still emits an author-mail line, rendered as empty angle
brackets, though the claim requires the line to be omitted when no email
value is available for the identity used. -/
theorem formatPorcelain_fallback_mail_counterexample :
    ((porcelainFields
        { blame := { CommitHash := "a1b2c3d4", Author := "John"
                     AuthorEmail := "", Date := "", LineNumber := 1
                     Content := "x" }
          PRNumber := 0, Approver := "", ApproverEmail := ""
          ApprovalTime := none }).any isAuthorMailField) = true
    ∧ authorMailAvailableSpec
        { blame := { CommitHash := "a1b2c3d4", Author := "John"
                     AuthorEmail := "", Date := "", LineNumber := 1
                     Content := "x" }
          PRNumber := 0, Approver := "", ApproverEmail := ""
          ApprovalTime := none } = false
    ∧ renderPorcelainField (.authorMail "") = "author-mail <>\n" :=
  ⟨by decide, by decide, rfl⟩

/-- C6 amended: with an approver present the author-mail line appears
exactly when the approver email is non-empty and carries it in angle
brackets; in the fallback the line is always emitted, carrying the original
author email (possibly empty) in angle brackets. -/
theorem formatPorcelain_authorMail_characterization
    (l : BlameLineWithApproval) :
    (porcelainFields l).filter isAuthorMailField
      = (if l.Approver ≠ "" then
          (if l.ApproverEmail ≠ "" then
            [PorcelainField.authorMail l.ApproverEmail] else [])
         else [PorcelainField.authorMail l.blame.AuthorEmail]) := by
  by_cases h1 : l.Approver = "" <;>
    by_cases h2 : l.ApproverEmail = "" <;>
      cases h3 : l.ApprovalTime <;>
        cases h4 : goParseInt64 l.blame.Date <;>
          by_cases h5 : 0 < l.PRNumber <;>
            simp [porcelainFields, h1, h2, h3, h4, h5, List.filter_append,
              isAuthorMailField]

/-- C7 counterexample: a line with an approver but no approval time, whose
commit timestamp parses as an integer, receives no author-time line at all;
the claim requires a fallback to the commit timestamp in that case. -/
theorem formatPorcelain_authorTime_counterexample :
    ((porcelainFields
        { blame := { CommitHash := "a1b2c3d4", Author := "John"
                     AuthorEmail := "john@x.com", Date := "123"
                     LineNumber := 1, Content := "x" }
          PRNumber := 5, Approver := "jane", ApproverEmail := "jane@x.com"
          ApprovalTime := none }).any isAuthorTimeField) = false
    ∧ goParseInt64 "123" = some 123 :=
  ⟨by decide, by decide⟩

/-- C7 amended: with an approver present, the author-time line is emitted
exactly when the approval time is present, carrying its epoch, with no
fallback to the commit timestamp; only without an approver is the commit
timestamp used, when it parses as an integer, and the line is omitted
otherwise. -/
theorem formatPorcelain_authorTime_characterization
    (l : BlameLineWithApproval) :
    (porcelainFields l).filter isAuthorTimeField
      = (if l.Approver ≠ "" then
          (match l.ApprovalTime with
            | some t => [PorcelainField.authorTime t]
            | none => [])
         else
          (match goParseInt64 l.blame.Date with
            | some ts => [PorcelainField.authorTime ts]
            | none => [])) := by
  by_cases h1 : l.Approver = "" <;>
    by_cases h2 : l.ApproverEmail = "" <;>
      cases h3 : l.ApprovalTime <;>
        cases h4 : goParseInt64 l.blame.Date <;>
          by_cases h5 : 0 < l.PRNumber <;>
            simp [porcelainFields, h1, h2, h3, h4, h5, List.filter_append,
              isAuthorTimeField]

/-! ## The human line-number column width claim -/

/-- The largest LineNumber value of an annotated set (0 for the empty set,
matching the accumulator start of the width pass). -/
def maxLineNumberVal (lines : List BlameLineWithApproval) : Int :=
  lines.foldl (fun a l => max a l.blame.LineNumber) 0

/-- A formatter with all options off, for the width fixtures. -/
def exFmt : OutputFormatter :=
  { ShowEmail := false, Porcelain := false, NoColors := false }

/-- A human-format fixture line with the given line number. -/
def exHumanLine (n : Int) : BlameLineWithApproval :=
  { blame := { CommitHash := "aaaabbbb", Author := "a", AuthorEmail := ""
               Date := "", LineNumber := n, Content := "" }
    PRNumber := 0, Approver := "", ApproverEmail := "", ApprovalTime := none }

/-- C8 counterexample: on two lines numbered 9 and 10 the code sizes the
column to the width of the count of lines (one digit), not to the width of
the largest line number (two digits), so the rendering differs from the
claimed one. -/
theorem formatHuman_lineNum_width_counterexample :
    formatHuman exFmt [exHumanLine 9, exHumanLine 10]
      ≠ formatHumanWithNumWidth exFmt
          (toString (maxLineNumberVal [exHumanLine 9, exHumanLine 10])).data.length
          [exHumanLine 9, exHumanLine 10] := by decide

lemma foldl_max_of_seq :
    ∀ (lines : List BlameLineWithApproval) (a s : Int),
    (∀ i (hi : i < lines.length),
        (lines.get ⟨i, hi⟩).blame.LineNumber = s + (i : Int) + 1) →
    lines.foldl (fun acc l => max acc l.blame.LineNumber) a
      = if lines.length = 0 then a else max a (s + lines.length) := by
  intro lines
  induction lines with
  | nil => intro a s _; simp
  | cons x t ih =>
    intro a s h
    have h0 := h 0 (by simp)
    simp only [List.get] at h0
    simp only [List.foldl_cons, List.length_cons]
    rw [h0]
    have ht : ∀ i (hi : i < t.length),
        (t.get ⟨i, hi⟩).blame.LineNumber = (s + 1) + (i : Int) + 1 := by
      intro i hi
      have hh := h (i + 1) (by simpa using Nat.succ_lt_succ hi)
      simp only [List.get] at hh
      rw [hh]
      push_cast
      ring
    have hz : s + ((0 : Nat) : Int) + 1 = s + 1 := by push_cast; ring
    rw [hz]
    rw [ih (max a (s + 1)) (s + 1) ht]
    by_cases hl : t.length = 0
    · rw [if_pos hl, if_neg (by omega)]
      rw [hl]
      norm_num
    · rw [if_neg hl, if_neg (by omega)]
      have hle : s + 1 ≤ s + 1 + (t.length : Int) := by
        have : (0 : Int) ≤ (t.length : Int) := Int.natCast_nonneg _
        omega
      rw [max_assoc, max_eq_right hle]
      congr 1
      push_cast
      ring

/-- C8 amended: the line-number column width the code uses is the character
width of the count of lines; when the line numbers are exactly 1..N, as the
parser guarantees for its output, this equals the character width of the
largest LineNumber value of the set, so the claimed sizing holds on such
sequences. -/
theorem formatHuman_lineNum_width_sequential (f : OutputFormatter)
    (lines : List BlameLineWithApproval) (hne : lines ≠ [])
    (hseq : ∀ i (hi : i < lines.length),
        (lines.get ⟨i, hi⟩).blame.LineNumber = (i : Int) + 1) :
    formatHuman f lines
      = formatHumanWithNumWidth f
          (toString (maxLineNumberVal lines)).data.length lines := by
  have hmax : maxLineNumberVal lines = (lines.length : Int) := by
    have hseq' : ∀ i (hi : i < lines.length),
        (lines.get ⟨i, hi⟩).blame.LineNumber = (0 : Int) + (i : Int) + 1 := by
      intro i hi
      rw [hseq i hi]
      ring
    rw [maxLineNumberVal, foldl_max_of_seq lines 0 0 hseq']
    rw [if_neg (by simpa using hne)]
    have : (0 : Int) ≤ (lines.length : Int) := Int.natCast_nonneg _
    omega
  rw [hmax]
  have hcast : toString ((lines.length : Int)) = toString lines.length := rfl
  rw [hcast, formatHuman]
  rw [if_neg (by simpa [List.isEmpty_iff] using hne)]

/-- Witness for C8 amended on a two-line 1..N sequence. -/
theorem formatHuman_lineNum_width_sequential_witness :
    formatHuman exFmt [exHumanLine 1, exHumanLine 2]
      = formatHumanWithNumWidth exFmt
          (toString (maxLineNumberVal [exHumanLine 1, exHumanLine 2])).data.length
          [exHumanLine 1, exHumanLine 2] :=
  formatHuman_lineNum_width_sequential exFmt [exHumanLine 1, exHumanLine 2]
    (by decide) (by decide)

end GitBlameReviewer
